import Mathlib

/-!
Verification of the interview-coach application's live-session core.

This file gives a shallow embedding of the repository's source:
- `src/utils/audioUtils.ts` (base64 `encode`/`decode`, `decodeAudioData`),
- the live-session orchestration of `src/components/InterviewScreen.tsx`
  (two variants appear in the source: a continuous-voice screen and a
  push-to-talk screen; both are embedded),
and proves the specification's testable properties about it.

Browser / JS primitives used by the source (`btoa`, `atob`,
`String.prototype.trim`, typed-array element conversion) are modelled by
Lean functions mirroring their ECMAScript semantics on the values the
source feeds them.
-/

/-! ## Transcript data model (src/types.ts: TranscriptMessage) -/

/-- Speaker tag of a transcript entry (`'USER' | 'AI'` in `src/types.ts`). -/
inductive Speaker where
  | USER
  | AI
deriving DecidableEq, Repr

/-- A transcript entry: `interface TranscriptMessage { speaker; text }`
(`src/types.ts`). -/
structure TranscriptMessage where
  speaker : Speaker
  text : String
deriving DecidableEq, Repr

/-! ## JS string trimming

The source calls `String.prototype.trim()`; we model it over the string's
character list: drop leading and trailing whitespace characters. -/

/-- Whitespace characters recognised by JS `trim` (the ones relevant to
the source's data: space, tab, newline, carriage return, vertical tab,
form feed). -/
def isJsSpace (c : Char) : Bool :=
  c == ' ' || c == '\t' || c == '\n' || c == '\r' || c == '\x0b' || c == '\x0c'

/-- Model of JS `String.prototype.trim`: remove leading and trailing
whitespace. -/
def jsTrim (s : String) : String :=
  String.mk (((s.data.dropWhile isJsSpace).reverse.dropWhile isJsSpace).reverse)

/-! ## Base64 (src/utils/audioUtils.ts: `encode` / `decode`)

The source's `encode` builds a binary string from the bytes via
`String.fromCharCode` and applies the browser primitive `btoa`; `decode`
applies `atob` and reads the bytes back with `charCodeAt`.  We model the
composition directly on byte lists: `btoaChars` maps a byte list to the
base64 character list `btoa` would produce, and `atobChars` maps a
character list back to the byte list `atob`-plus-`charCodeAt` would
produce (`none` models the `InvalidCharacterError` `atob` throws on
input that is not canonical padded base64). -/

/-- The base64 alphabet, index 0 to 63. -/
def b64Alphabet : List Char :=
  "ABCDEFGHIJKLMNOPQRSTUVWXYZabcdefghijklmnopqrstuvwxyz0123456789+/".data

/-- Character of the base64 alphabet for a sextet value. -/
def sextetChar (n : Nat) : Char := b64Alphabet.getD n 'A'

/-- Index of a character in a character list. -/
def charIndex (c : Char) : List Char → Option Nat
  | [] => none
  | d :: ds => if d = c then some 0 else (charIndex c ds).map (· + 1)

/-- Sextet value of a base64 alphabet character (`none` for characters
outside the alphabet). -/
def sextetVal (c : Char) : Option Nat := charIndex c b64Alphabet

/-- Base64 encoding of a byte list, as `btoa` produces it: three bytes
become four sextet characters, a trailing group of one or two bytes is
padded with `=`. -/
def btoaChars : List Nat → List Char
  | [] => []
  | [a] => [sextetChar (a / 4), sextetChar (a % 4 * 16), '=', '=']
  | [a, b] => [sextetChar (a / 4), sextetChar (a % 4 * 16 + b / 16),
               sextetChar (b % 16 * 4), '=']
  | a :: b :: c :: rest =>
      sextetChar (a / 4) :: sextetChar (a % 4 * 16 + b / 16) ::
      sextetChar (b % 16 * 4 + c / 64) :: sextetChar (c % 64) :: btoaChars rest

/-- Base64 decoding of a character list, as `atob` followed by the
source's `charCodeAt` loop produces it; `none` on input that is not
canonical padded base64. -/
def atobChars : List Char → Option (List Nat)
  | [] => some []
  | c0 :: c1 :: c2 :: c3 :: rest =>
      (sextetVal c0).bind fun s0 =>
      (sextetVal c1).bind fun s1 =>
      if c2 = '=' then
        if c3 = '=' ∧ rest = [] then some [s0 * 4 + s1 / 16] else none
      else
        (sextetVal c2).bind fun s2 =>
        if c3 = '=' then
          if rest = [] then some [s0 * 4 + s1 / 16, s1 % 16 * 16 + s2 / 4]
          else none
        else
          (sextetVal c3).bind fun s3 =>
          (atobChars rest).map fun tail =>
            (s0 * 4 + s1 / 16) :: (s1 % 16 * 16 + s2 / 4) ::
            (s2 % 4 * 64 + s3) :: tail
  | _ => none

/-- Embedding of `encode` (src/utils/audioUtils.ts lines 24-31): bytes to
a base64 string. -/
def encode (bytes : List Nat) : String := String.mk (btoaChars bytes)

/-- Embedding of `decode` (src/utils/audioUtils.ts lines 9-17): base64
string to bytes; `none` models the exception `atob` throws on invalid
input. -/
def decode (base64 : String) : Option (List Nat) := atobChars base64.data

/-! ### Base64 round-trip lemmas -/

/-- On sextet values, `sextetVal` inverts `sextetChar`, and `sextetChar`
never yields the padding character. -/
theorem sextet_inverse_fin :
    ∀ n : Fin 64, sextetVal (sextetChar n.val) = some n.val ∧
      sextetChar n.val ≠ '=' := by decide

theorem sextetVal_sextetChar {n : Nat} (h : n < 64) :
    sextetVal (sextetChar n) = some n :=
  (sextet_inverse_fin ⟨n, h⟩).1

theorem sextetChar_ne_pad {n : Nat} (h : n < 64) : sextetChar n ≠ '=' :=
  (sextet_inverse_fin ⟨n, h⟩).2

/-- Core round-trip: decoding the base64 character list produced from any
byte list recovers exactly that byte list. -/
theorem atobChars_btoaChars (b : List Nat) (h : ∀ x ∈ b, x < 256) :
    atobChars (btoaChars b) = some b := by
  induction b using btoaChars.induct with
  | case1 => rfl
  | case2 a =>
      have ha : a < 256 := h a (by simp)
      simp [btoaChars, atobChars,
        sextetVal_sextetChar (show a / 4 < 64 by omega),
        sextetVal_sextetChar (show a % 4 * 16 < 64 by omega)]
      omega
  | case3 a b =>
      have ha : a < 256 := h a (by simp)
      have hb : b < 256 := h b (by simp)
      simp [btoaChars, atobChars,
        sextetVal_sextetChar (show a / 4 < 64 by omega),
        sextetVal_sextetChar (show a % 4 * 16 + b / 16 < 64 by omega),
        sextetVal_sextetChar (show b % 16 * 4 < 64 by omega),
        sextetChar_ne_pad (show b % 16 * 4 < 64 by omega)]
      omega
  | case4 a b c rest ih =>
      have ha : a < 256 := h a (by simp)
      have hb : b < 256 := h b (by simp)
      have hc : c < 256 := h c (by simp)
      have hrest : ∀ x ∈ rest, x < 256 := fun x hx => h x (by simp [hx])
      simp [btoaChars, atobChars,
        sextetVal_sextetChar (show a / 4 < 64 by omega),
        sextetVal_sextetChar (show a % 4 * 16 + b / 16 < 64 by omega),
        sextetVal_sextetChar (show b % 16 * 4 + c / 64 < 64 by omega),
        sextetChar_ne_pad (show b % 16 * 4 + c / 64 < 64 by omega),
        sextetVal_sextetChar (show c % 64 < 64 by omega),
        sextetChar_ne_pad (show c % 64 < 64 by omega),
        ih hrest]
      omega

/-- C2.  Base64 round-trip: for every byte sequence `b` (every byte below
256, as `Uint8Array` guarantees), `decode (encode b)` succeeds and
returns exactly `b` — same length, every byte equal. -/
theorem c2_base64_roundtrip (b : List Nat) (h : ∀ x ∈ b, x < 256) :
    decode (encode b) = some b :=
  atobChars_btoaChars b h

/-- Witness for C2 at the concrete byte sequence `[0, 1, 127, 255, 64]`. -/
theorem c2_base64_roundtrip_witness :
    (∀ x ∈ [0, 1, 127, 255, 64], x < 256) ∧
      decode (encode [0, 1, 127, 255, 64]) = some [0, 1, 127, 255, 64] :=
  ⟨by decide, c2_base64_roundtrip [0, 1, 127, 255, 64] (by decide)⟩


/-! ## Raw PCM decoding (src/utils/audioUtils.ts: `decodeAudioData`)

The source reinterprets the byte buffer as a little-endian `Int16Array`
(which throws if the byte length is odd), computes
`frameCount = dataInt16.length / numChannels` (the created buffer
truncates this to an integer, so a trailing incomplete frame is
dropped), and fills channel `c`, frame `i` with
`dataInt16[i * numChannels + c] / 32768.0`.  Samples are exact dyadic
rationals, so the produced floats are modelled in `ℚ`. -/

/-- Little-endian signed 16-bit value of a byte pair (two's complement). -/
def toInt16LE (lo hi : Nat) : Int :=
  let u := lo % 256 + 256 * (hi % 256)
  if u < 32768 then (u : Int) else (u : Int) - 65536

/-- Reinterpretation of a byte list as a little-endian `Int16Array`
(consumes bytes pairwise; a trailing odd byte cannot occur because the
constructor rejects odd buffer lengths). -/
def bytesToInt16 : List Nat → List Int
  | [] => []
  | [_] => []
  | lo :: hi :: rest => toInt16LE lo hi :: bytesToInt16 rest

/-- Embedding of `decodeAudioData` (src/utils/audioUtils.ts lines 42-60):
channel-major sample matrix of the decoded buffer; `none` models the
exception the `Int16Array` constructor throws on an odd byte length.
The `ctx` and `sampleRate` arguments of the source only label the
created buffer and do not affect the samples, so they are omitted. -/
def decodeAudioData (data : List Nat) (numChannels : Nat) :
    Option (List (List ℚ)) :=
  if data.length % 2 = 0 then
    let dataInt16 := bytesToInt16 data
    let frameCount := dataInt16.length / numChannels
    some ((List.range numChannels).map fun channel =>
      (List.range frameCount).map fun i =>
        ((dataInt16.getD (i * numChannels + channel) 0 : ℚ) / 32768))
  else none

/-- The signed 16-bit sample at index `k` of a raw PCM byte buffer, read
directly from the bytes. -/
def pcm16At (data : List Nat) (k : Nat) : Int :=
  toInt16LE (data.getD (2 * k) 0) (data.getD (2 * k + 1) 0)

theorem bytesToInt16_length (data : List Nat) :
    (bytesToInt16 data).length = data.length / 2 := by
  induction data using bytesToInt16.induct with
  | case1 => rfl
  | case2 x => simp [bytesToInt16]
  | case3 lo hi rest ih => simp [bytesToInt16, ih]; omega

theorem bytesToInt16_getD (data : List Nat) (k : Nat)
    (hk : k < data.length / 2) :
    (bytesToInt16 data).getD k 0 =
      toInt16LE (data.getD (2 * k) 0) (data.getD (2 * k + 1) 0) := by
  induction data using bytesToInt16.induct generalizing k with
  | case1 => simp only [List.length_nil] at hk; omega
  | case2 x => simp only [List.length_singleton] at hk; omega
  | case3 lo hi rest ih =>
      cases k with
      | zero => rfl
      | succ k =>
          have hk' : k < rest.length / 2 := by
            simp at hk; omega
          simpa [bytesToInt16, List.getD_cons_succ,
            show 2 * (k + 1) = 2 * k + 1 + 1 by omega] using ih k hk'

theorem mapRange_getD {α : Type} (m k : Nat) (f : Nat → α) (d : α)
    (hk : k < m) : ((List.range m).map f).getD k d = f k := by
  rw [List.getD_eq_getElem _ _ (by simpa using hk)]
  simp

/-- C3.  PCM decoding: for every little-endian 16-bit PCM byte buffer
(even byte length) and channel count `n ≥ 1`, `decodeAudioData`
succeeds, yields `n` channels, each channel holds
`⌊total samples / n⌋` frames (so a trailing incomplete frame produces no
output frame rather than an error), and the sample of channel `c` at
frame `i` equals `int16[i*n+c] / 32768`. -/
theorem c3_decodeAudioData (data : List Nat) (n : Nat)
    (heven : data.length % 2 = 0) (_hn : 1 ≤ n) :
    ∃ buf, decodeAudioData data n = some buf ∧
      buf.length = n ∧
      (∀ c, c < n → (buf.getD c []).length = data.length / 2 / n) ∧
      (∀ c i, c < n → i < data.length / 2 / n →
        (buf.getD c []).getD i 0 = (pcm16At data (i * n + c) : ℚ) / 32768) := by
  rw [decodeAudioData, if_pos heven]
  refine ⟨_, rfl, by simp, ?_, ?_⟩
  · intro c hc
    rw [mapRange_getD _ _ _ _ hc]
    simp [bytesToInt16_length]
  · intro c i hc hi
    have hlen := bytesToInt16_length data
    have hmul : (i + 1) * n = i * n + n := by ring
    have hidx : i * n + c < data.length / 2 := by
      have h2 : (i + 1) * n ≤ data.length / 2 / n * n :=
        Nat.mul_le_mul_right n hi
      have h3 : data.length / 2 / n * n ≤ data.length / 2 :=
        Nat.div_mul_le_self _ n
      omega
    rw [mapRange_getD _ _ _ _ hc,
      mapRange_getD _ _ _ _ (show i < (bytesToInt16 data).length / n by
        rw [hlen]; exact hi),
      bytesToInt16_getD data _ hidx]
    rfl

/-- Witness for C3 at the concrete buffer `[0, 128, 1, 0, 255, 255]`
(samples `-32768, 1, -1`) with `n = 2` channels: three samples make one
full frame, the trailing sample is dropped. -/
theorem c3_decodeAudioData_witness :
    ([0, 128, 1, 0, 255, 255] : List Nat).length % 2 = 0 ∧ 1 ≤ 2 ∧
      ∃ buf, decodeAudioData [0, 128, 1, 0, 255, 255] 2 = some buf ∧
        buf.length = 2 ∧
        (∀ c, c < 2 →
          (buf.getD c []).length = ([0, 128, 1, 0, 255, 255] : List Nat).length / 2 / 2) ∧
        (∀ c i, c < 2 → i < ([0, 128, 1, 0, 255, 255] : List Nat).length / 2 / 2 →
          (buf.getD c []).getD i 0 =
            (pcm16At [0, 128, 1, 0, 255, 255] (i * 2 + c) : ℚ) / 32768) :=
  ⟨by decide, by decide,
    c3_decodeAudioData [0, 128, 1, 0, 255, 255] 2 (by decide) (by decide)⟩

/-! ## Outbound sample conversion (src/components/InterviewScreen.tsx)

Both screen variants convert a captured frame with
`new Int16Array(inputData.map(x => x * 32768))`
(lines 107-112 and 407-414).  The captured samples are 32-bit floats in
`[-1, 1]`; `x * 32768` is an exact scaling by a power of two, so the
arithmetic is modelled exactly in `ℚ`.  Storing into an `Int16Array`
applies the ECMAScript `ToInt16` conversion: truncate toward zero, then
reduce modulo 2^16 into `[-32768, 32767]`. -/

/-- Truncation toward zero of a rational (the ECMAScript integral
conversion step). -/
def ratTrunc (v : ℚ) : Int := if 0 ≤ v then ⌊v⌋ else ⌈v⌉

/-- ECMAScript `ToInt16` applied to an integer: reduce modulo 2^16 into
`[-32768, 32767]`. -/
def toInt16 (z : Int) : Int :=
  if z % 65536 < 32768 then z % 65536 else z % 65536 - 65536

/-- The int16 sample a captured float sample `x` becomes in the outbound
PCM blob: `Int16Array` element conversion of `x * 32768`. -/
def submitSampleInt16 (x : ℚ) : Int := toInt16 (ratTrunc (x * 32768))

/-- Little-endian byte pair of an int16 value, as laid out in the
`Int16Array`'s buffer that the source wraps in a `Uint8Array`. -/
def int16LEBytes (z : Int) : List Nat :=
  let u := (z % 65536).toNat
  [u % 256, u / 256]

/-- Byte list of the outbound PCM blob built from a captured frame
(`new Uint8Array(new Int16Array(inputData.map(x => x * 32768)).buffer)`). -/
def frameToPcmBytes (frame : List ℚ) : List Nat :=
  (frame.map fun x => int16LEBytes (submitSampleInt16 x)).flatten

theorem toInt16_eq_of_range (z : Int) (h1 : -32768 ≤ z) (h2 : z < 32768) :
    toInt16 z = z := by
  unfold toInt16
  omega

/-- C8 counterexample: at the in-range sample `x = 1`, the conversion
wraps: the encoded int16 value is `-32768`, while the truncation of
`x * 32768` is `32768` — so the value differs from the truncation and
its sign is opposite to the sign of `x`. -/
theorem c8_sample_conversion_counterexample :
    submitSampleInt16 1 = -32768 ∧ ratTrunc ((1 : ℚ) * 32768) = 32768 ∧
      (0 : ℚ) < 1 ∧ submitSampleInt16 1 < 0 := by
  have h1 : ratTrunc ((1 : ℚ) * 32768) = 32768 := by
    unfold ratTrunc
    rw [if_pos (by norm_num),
      show ((1 : ℚ) * 32768) = ((32768 : Int) : ℚ) by norm_num]
    exact Int.floor_intCast _
  have h2 : submitSampleInt16 1 = -32768 := by
    unfold submitSampleInt16
    rw [h1]
    decide
  exact ⟨h2, h1, by norm_num, by rw [h2]; norm_num⟩

/-- C8 (amended).  For every captured sample `x` with `-1 ≤ x < 1`, the
encoded int16 value equals the truncation of `x * 32768` with no
overflow or wraparound, and it is never negative for `x ≥ 0` nor
positive for `x ≤ 0`; the endpoint `x = 1` instead wraps to `-32768`
(see the counterexample). -/
theorem c8_sample_conversion_amended (x : ℚ) (h1 : -1 ≤ x) (h2 : x < 1) :
    submitSampleInt16 x = ratTrunc (x * 32768) ∧
      (0 ≤ x → 0 ≤ submitSampleInt16 x) ∧
      (x ≤ 0 → submitSampleInt16 x ≤ 0) := by
  have hlo : (-32768 : ℚ) ≤ x * 32768 := by nlinarith
  have hhi : x * 32768 < 32768 := by nlinarith
  have htr1 : -32768 ≤ ratTrunc (x * 32768) := by
    unfold ratTrunc
    split
    · rename_i hv
      have h0 : (0 : Int) ≤ ⌊x * 32768⌋ := Int.le_floor.mpr (by exact_mod_cast hv)
      omega
    · exact_mod_cast le_trans hlo (Int.le_ceil (x * 32768))
  have htr2 : ratTrunc (x * 32768) < 32768 := by
    unfold ratTrunc
    split
    · exact Int.floor_lt.mpr (by exact_mod_cast hhi)
    · rename_i hv
      push_neg at hv
      have h0 : ⌈x * 32768⌉ ≤ 0 := Int.ceil_le.mpr (by exact_mod_cast le_of_lt hv)
      omega
  have heq : submitSampleInt16 x = ratTrunc (x * 32768) :=
    toInt16_eq_of_range _ htr1 htr2
  refine ⟨heq, ?_, ?_⟩
  · intro hx
    rw [heq]
    unfold ratTrunc
    rw [if_pos (mul_nonneg hx (by norm_num))]
    exact Int.le_floor.mpr (by exact_mod_cast mul_nonneg hx (by norm_num))
  · intro hx
    rw [heq]
    unfold ratTrunc
    have hle : x * 32768 ≤ 0 := by nlinarith
    split
    · exact_mod_cast le_trans (Int.floor_le (x * 32768)) hle
    · exact Int.ceil_le.mpr (by exact_mod_cast hle)

/-- Witness for the amended C8 at the concrete sample `x = -1/2`. -/
theorem c8_sample_conversion_amended_witness :
    (-1 : ℚ) ≤ -1/2 ∧ (-1/2 : ℚ) < 1 ∧
      (submitSampleInt16 (-1/2) = ratTrunc ((-1/2 : ℚ) * 32768) ∧
        (0 ≤ (-1/2 : ℚ) → 0 ≤ submitSampleInt16 (-1/2)) ∧
        ((-1/2 : ℚ) ≤ 0 → submitSampleInt16 (-1/2) ≤ 0)) :=
  ⟨by norm_num, by norm_num,
    c8_sample_conversion_amended (-1/2) (by norm_num) (by norm_num)⟩

/-! ## Live-session orchestration (src/components/InterviewScreen.tsx)

The source contains two screen variants.  The continuous-voice variant
(lines 15-245) accumulates input/output transcription fragments in refs
and appends finalized messages on a server turn-complete signal
(`onmessage`, lines 122-142), and schedules received audio clips with a
monotonic cursor (lines 144-160).  The push-to-talk variant (lines
258-577) appends a `'...'` placeholder on record start, rewrites the
last entry while transcribing (lines 418-427), finalizes it on record
stop (`handleStopRecording`, lines 323-370), and streams the AI reply
into a trailing AI entry.

`OrchState` carries the transcript together with both variants'
accumulator refs and flags; each event constructor of `Event` is one
source callback, translated from the cited lines. -/

/-- Inbound message of the streaming connection (the fields of
`LiveServerMessage` the source reads: optional output/input
transcription text, the turn-complete flag, optional inline audio
data). -/
structure LiveServerMessage where
  outputTranscription : Option String
  inputTranscription : Option String
  turnComplete : Bool
  audioData : Option (List Nat)

/-- Orchestrator state: the transcript plus the refs and flags of both
screen variants.  `capturedMuted` is the value of `isMuted` captured by
the `onaudioprocess` closure when the session-start effect ran (the
effect's dependency array is `[config]`, so the closure never observes
later `setIsMuted` updates); `isMuted` is the live React state the mute
button toggles. -/
structure OrchState where
  transcript : List TranscriptMessage
  inputAcc : String
  outputAcc : String
  liveAcc : String
  aiAcc : String
  isRecording : Bool
  isAiTyping : Bool
  sentToAi : List String
  nextStartTime : ℚ
  scheduled : List (ℚ × ℚ)
  isMuted : Bool
  capturedMuted : Bool
deriving DecidableEq

/-- Default transcript entry used with `List.getD`. -/
def defaultMsg : TranscriptMessage := { speaker := Speaker.USER, text := "" }

/-- Duration in seconds of a decoded 24 kHz mono clip from its raw byte
payload (`audioBuffer.duration`: frame count over sample rate). -/
def clipDuration (bytes : List Nat) : ℚ := ((bytes.length / 2 : Nat) : ℚ) / 24000

/-- Embedding of the continuous-voice `onmessage` callback
(src/components/InterviewScreen.tsx lines 122-160): append transcription
fragments to the refs, finalize both speakers' messages on
turn-complete (trimmed, empty results dropped), then schedule any
inline audio clip at `max(nextStartTime, currentTime)` and advance the
cursor by the clip duration.  `t0` is the output context's
`currentTime` when the handler runs. -/
def onmessageA (s : OrchState) (m : LiveServerMessage) (t0 : ℚ) : OrchState :=
  let s1 := match m.outputTranscription with
    | some t => { s with outputAcc := s.outputAcc ++ t }
    | none => s
  let s2 := match m.inputTranscription with
    | some t => { s1 with inputAcc := s1.inputAcc ++ t }
    | none => s1
  let s3 := if m.turnComplete then
      let t1 := if jsTrim s2.inputAcc = "" then s2.transcript
        else s2.transcript ++ [{ speaker := Speaker.USER, text := jsTrim s2.inputAcc }]
      let t2 := if jsTrim s2.outputAcc = "" then t1
        else t1 ++ [{ speaker := Speaker.AI, text := jsTrim s2.outputAcc }]
      { s2 with transcript := t2, inputAcc := "", outputAcc := "" }
    else s2
  match m.audioData with
  | some bytes =>
      let start := max s3.nextStartTime t0
      { s3 with
        nextStartTime := start + clipDuration bytes,
        scheduled := s3.scheduled ++ [(start, clipDuration bytes)] }
  | none => s3

/-- Rewrite of the last element of a list
(`newTranscript[newTranscript.length - 1] = msg`); on an empty list the
JS assignment targets index `-1` and leaves the array elements
unchanged. -/
def setLast : List TranscriptMessage → TranscriptMessage → List TranscriptMessage
  | [], _ => []
  | [_], m => [m]
  | x :: y :: xs, m => x :: setLast (y :: xs) m

/-- Finalization of the trailing user entry (`handleStopRecording` lines
333-339): rewrite the last entry's text only when the transcript is
nonempty and its last entry is a USER entry. -/
def finalizeLastUser (l : List TranscriptMessage) (txt : String) :
    List TranscriptMessage :=
  match l.getLast? with
  | some m => if m.speaker = Speaker.USER then
      setLast l { speaker := Speaker.USER, text := txt } else l
  | none => l

/-- Embedding of `handleStartRecording` (lines 373-381): guarded by the
recording and AI-typing flags; resets the live transcription ref and
appends the `'...'` placeholder user entry. -/
def handleStartRecording (s : OrchState) : OrchState :=
  if s.isRecording || s.isAiTyping then s
  else
    { s with
      isRecording := true,
      liveAcc := "",
      transcript := s.transcript ++ [{ speaker := Speaker.USER, text := "..." }] }

/-- Embedding of the push-to-talk `onmessage` transcription branch
(lines 418-427): extend the live transcription ref and rewrite the last
entry with the accumulated text plus a `'...'` suffix. -/
def onmessageB (s : OrchState) (t : String) : OrchState :=
  let acc := s.liveAcc ++ t
  { s with
    liveAcc := acc,
    transcript := setLast s.transcript { speaker := Speaker.USER, text := acc ++ "..." } }

/-- Embedding of `handleStopRecording` (lines 323-370): guarded by the
recording flag; finalizes the trailing user entry with the trimmed
accumulated text, or with `"(No speech detected)"` when that text is
empty; only a nonempty text is sent to the chat, opening a streaming AI
entry. -/
def handleStopRecording (s : OrchState) : OrchState :=
  if !s.isRecording then s
  else
    let userText := jsTrim s.liveAcc
    let t1 := finalizeLastUser s.transcript
      (if userText = "" then "(No speech detected)" else userText)
    if userText = "" then
      { s with isRecording := false, liveAcc := "", transcript := t1 }
    else
      { s with
        isRecording := false,
        liveAcc := "",
        isAiTyping := true,
        aiAcc := "",
        transcript := t1 ++ [{ speaker := Speaker.AI, text := "" }],
        sentToAi := s.sentToAi ++ [userText] }

/-- Embedding of one streamed AI response chunk (lines 352-359 and
490-497): extend the accumulated AI text and rewrite the last entry. -/
def aiChunkStep (s : OrchState) (t : String) : OrchState :=
  let acc := s.aiAcc ++ t
  { s with
    aiAcc := acc,
    transcript := setLast s.transcript { speaker := Speaker.AI, text := acc } }

/-- End of the AI response stream (the `finally` blocks, lines 363-366
and 501-504). -/
def aiStreamEndStep (s : OrchState) : OrchState := { s with isAiTyping := false }

/-- The mute button (line 233): `setIsMuted(!isMuted)`. -/
def toggleMuteStep (s : OrchState) : OrchState := { s with isMuted := !s.isMuted }

/-- One orchestrator event: an inbound server message of the
continuous-voice session (with the output context's current time), or a
push-to-talk action. -/
inductive Event where
  | messageA (m : LiveServerMessage) (t0 : ℚ)
  | startRecording
  | liveFrag (t : String)
  | stopRecording
  | aiChunk (t : String)
  | aiStreamEnd
  | toggleMute

/-- Apply one event to the orchestrator state. -/
def applyEvent (s : OrchState) : Event → OrchState
  | Event.messageA m t0 => onmessageA s m t0
  | Event.startRecording => handleStartRecording s
  | Event.liveFrag t => onmessageB s t
  | Event.stopRecording => handleStopRecording s
  | Event.aiChunk t => aiChunkStep s t
  | Event.aiStreamEnd => aiStreamEndStep s
  | Event.toggleMute => toggleMuteStep s

/-- Initial orchestrator state: empty transcript, empty refs, all flags
down (`useState`/`useRef` initial values). -/
def initOrch : OrchState :=
  { transcript := [], inputAcc := "", outputAcc := "", liveAcc := "",
    aiAcc := "", isRecording := false, isAiTyping := false, sentToAi := [],
    nextStartTime := 0, scheduled := [], isMuted := false,
    capturedMuted := false }

/-- Orchestrator state after a sequence of events from the initial
state. -/
def runEvents (es : List Event) : OrchState := es.foldl applyEvent initOrch

/-- The transcript filter of the push-to-talk `endInterview` (line 458):
drop entries whose trimmed text is empty or the `'...'` placeholder;
the result is what is passed to the report generator. -/
def cleanTranscript (t : List TranscriptMessage) : List TranscriptMessage :=
  t.filter fun msg => !(jsTrim msg.text == "") && !(jsTrim msg.text == "...")

/-- Result of one `onaudioprocess` invocation (lines 107-118): the
base64 PCM blob is always produced from the captured frame; it is
forwarded to the session only when the closure's captured mute flag is
down. -/
structure AudioProcessResult where
  blobData : String
  sent : Option String
deriving DecidableEq

/-- Embedding of the continuous-voice `onaudioprocess` callback (lines
107-118): build the PCM blob from the captured frame, then forward it
unless the closure-captured `isMuted` value is set. -/
def onaudioprocessA (s : OrchState) (frame : List ℚ) : AudioProcessResult :=
  let blob := encode (frameToPcmBytes frame)
  { blobData := blob, sent := if s.capturedMuted then none else some blob }

/-- A helper message carrying one input-transcription fragment. -/
def inputFragMsg (t : String) : LiveServerMessage :=
  { outputTranscription := none, inputTranscription := some t,
    turnComplete := false, audioData := none }

/-- A helper message carrying only the turn-complete signal. -/
def turnCompleteMsg : LiveServerMessage :=
  { outputTranscription := none, inputTranscription := none,
    turnComplete := true, audioData := none }

/-- A helper message carrying only an inline audio payload. -/
def audioMsg (bytes : List Nat) : LiveServerMessage :=
  { outputTranscription := none, inputTranscription := none,
    turnComplete := false, audioData := some bytes }

/-! ### Reduction lemmas for `onmessageA` on single-purpose messages -/

theorem onmessageA_inputFrag (s : OrchState) (t : String) (t0 : ℚ) :
    onmessageA s (inputFragMsg t) t0 = { s with inputAcc := s.inputAcc ++ t } :=
  rfl

theorem onmessageA_turnComplete (s : OrchState) (t0 : ℚ) :
    onmessageA s turnCompleteMsg t0 =
      { s with
        transcript :=
          (if jsTrim s.outputAcc = "" then
            (if jsTrim s.inputAcc = "" then s.transcript
             else s.transcript ++
               [{ speaker := Speaker.USER, text := jsTrim s.inputAcc }])
          else
            (if jsTrim s.inputAcc = "" then s.transcript
             else s.transcript ++
               [{ speaker := Speaker.USER, text := jsTrim s.inputAcc }]) ++
            [{ speaker := Speaker.AI, text := jsTrim s.outputAcc }]),
        inputAcc := "",
        outputAcc := "" } :=
  rfl

theorem onmessageA_audio (s : OrchState) (bytes : List Nat) (t0 : ℚ) :
    onmessageA s (audioMsg bytes) t0 =
      { s with
        nextStartTime := max s.nextStartTime t0 + clipDuration bytes,
        scheduled := s.scheduled ++
          [(max s.nextStartTime t0, clipDuration bytes)] } :=
  rfl

/-! ### Prefix stability: every transcript mutation appends or rewrites
only the last element, so entries before the last are frozen forever. -/

theorem setLast_length (l : List TranscriptMessage) (m : TranscriptMessage) :
    (setLast l m).length = l.length := by
  induction l, m using setLast.induct with
  | case1 m => rfl
  | case2 x m => rfl
  | case3 x y xs m ih => simpa [setLast] using ih

theorem setLast_getD (l : List TranscriptMessage) (m : TranscriptMessage) :
    ∀ i, i + 1 < l.length →
      (setLast l m).getD i defaultMsg = l.getD i defaultMsg := by
  induction l, m using setLast.induct with
  | case1 m => intro i h; rfl
  | case2 x m => intro i h; simp at h
  | case3 x y xs m ih =>
      intro i h
      cases i with
      | zero => rfl
      | succ i =>
          have h' : i + 1 < (y :: xs).length := by
            simpa using Nat.lt_of_succ_lt_succ h
          simpa [setLast, List.getD_cons_succ] using ih i h'

theorem setLast_concat (xs : List TranscriptMessage)
    (x m : TranscriptMessage) : setLast (xs ++ [x]) m = xs ++ [m] := by
  induction xs with
  | nil => rfl
  | cons a as ih =>
      cases as with
      | nil => rfl
      | cons b bs => simpa [setLast] using ih

/-- Transcript evolution discipline: the new transcript is at least as
long and agrees with the old one on every entry except possibly the
last. -/
def PrefixStable (t t' : List TranscriptMessage) : Prop :=
  t.length ≤ t'.length ∧
  ∀ i, i + 1 < t.length → t'.getD i defaultMsg = t.getD i defaultMsg

theorem prefixStable_refl (t : List TranscriptMessage) : PrefixStable t t :=
  ⟨le_refl _, fun _ _ => rfl⟩

theorem prefixStable_trans {a b c : List TranscriptMessage}
    (h1 : PrefixStable a b) (h2 : PrefixStable b c) : PrefixStable a c :=
  ⟨le_trans h1.1 h2.1, fun i hi =>
    (h2.2 i (lt_of_lt_of_le hi h1.1)).trans (h1.2 i hi)⟩

theorem prefixStable_append (t u : List TranscriptMessage) :
    PrefixStable t (t ++ u) := by
  refine ⟨by simp, fun i hi => ?_⟩
  rw [List.getD_append _ _ _ _ (by omega)]

theorem prefixStable_setLast (t : List TranscriptMessage)
    (m : TranscriptMessage) : PrefixStable t (setLast t m) :=
  ⟨by rw [setLast_length], fun i hi => setLast_getD t m i hi⟩

theorem prefixStable_finalizeLastUser (t : List TranscriptMessage)
    (txt : String) : PrefixStable t (finalizeLastUser t txt) := by
  unfold finalizeLastUser
  cases t.getLast? with
  | none => exact prefixStable_refl t
  | some m =>
      dsimp only
      by_cases h : m.speaker = Speaker.USER
      · rw [if_pos h]
        exact prefixStable_setLast t _
      · rw [if_neg h]
        exact prefixStable_refl t

theorem prefixStable_onmessageA (s : OrchState) (m : LiveServerMessage)
    (t0 : ℚ) : PrefixStable s.transcript (onmessageA s m t0).transcript := by
  obtain ⟨o, i, tc, ad⟩ := m
  cases o <;> cases i <;> cases tc <;> cases ad <;>
    dsimp only [onmessageA] <;>
    split_ifs <;>
    first
      | exact prefixStable_refl _
      | exact prefixStable_append _ _
      | exact prefixStable_trans (prefixStable_append _ _)
          (prefixStable_append _ _)

theorem prefixStable_applyEvent (s : OrchState) (e : Event) :
    PrefixStable s.transcript (applyEvent s e).transcript := by
  cases e with
  | messageA m t0 => exact prefixStable_onmessageA s m t0
  | startRecording =>
      dsimp only [applyEvent, handleStartRecording]
      split_ifs
      · exact prefixStable_refl _
      · exact prefixStable_append _ _
  | liveFrag t => exact prefixStable_setLast _ _
  | stopRecording =>
      dsimp only [applyEvent, handleStopRecording]
      split_ifs
      · exact prefixStable_refl _
      · exact prefixStable_finalizeLastUser _ _
      · exact prefixStable_trans (prefixStable_finalizeLastUser _ _)
          (prefixStable_append _ _)
  | aiChunk t => exact prefixStable_setLast _ _
  | aiStreamEnd => exact prefixStable_refl _
  | toggleMute => exact prefixStable_refl _

theorem prefixStable_foldl (es : List Event) :
    ∀ s : OrchState, PrefixStable s.transcript
      ((es.foldl applyEvent s).transcript) := by
  induction es with
  | nil => intro s; exact prefixStable_refl _
  | cons e es ih =>
      intro s
      exact prefixStable_trans (prefixStable_applyEvent s e)
        (ih (applyEvent s e))

/-- C1.  Transcript invariant: under any sequence of orchestration
events from the initially empty transcript (transcription fragments,
turn-complete signals, start/stop of a recording turn, streamed AI
chunks, audio and mute events), every entry other than the current last
one is frozen: extending the event sequence never changes it, and the
transcript never shrinks.  Hence at most one entry — the last — is
still in progress at any observation point. -/
theorem c1_transcript_invariant (es es' : List Event) (i : Nat)
    (h : i + 1 < (runEvents es).transcript.length) :
    (runEvents es).transcript.length ≤
        (runEvents (es ++ es')).transcript.length ∧
      (runEvents (es ++ es')).transcript.getD i defaultMsg =
        (runEvents es).transcript.getD i defaultMsg := by
  simp only [runEvents, List.foldl_append]
  exact ⟨(prefixStable_foldl es' (es.foldl applyEvent initOrch)).1,
    (prefixStable_foldl es' (es.foldl applyEvent initOrch)).2 i h⟩

/-- Witness for C1: after recording the utterance `"a"` and stopping,
the transcript has two entries (the finalized user entry and the AI
placeholder); entry 0 is unchanged by a further streamed AI chunk. -/
theorem c1_transcript_invariant_witness :
    0 + 1 < (runEvents [Event.startRecording, Event.liveFrag "a",
        Event.stopRecording]).transcript.length ∧
      ((runEvents [Event.startRecording, Event.liveFrag "a",
          Event.stopRecording]).transcript.length ≤
        (runEvents ([Event.startRecording, Event.liveFrag "a",
          Event.stopRecording] ++ [Event.aiChunk "ok"])).transcript.length ∧
      (runEvents ([Event.startRecording, Event.liveFrag "a",
          Event.stopRecording] ++ [Event.aiChunk "ok"])).transcript.getD 0
            defaultMsg =
        (runEvents [Event.startRecording, Event.liveFrag "a",
          Event.stopRecording]).transcript.getD 0 defaultMsg) :=
  ⟨by decide, c1_transcript_invariant _ _ 0 (by decide)⟩

/-- C4.  Turn-complete finalization: from a state with empty
accumulators, the fragments `"Hel"` then `"lo"` for the USER followed by
a turn-complete signal append exactly the finalized message
`{speaker := USER, text := "Hello"}` (fragments concatenated in arrival
order, trimmed); and on a turn-complete signal, a speaker whose
accumulated text trims to empty contributes no message (shown here for
the USER accumulator of an arbitrary state `s'`, with only the AI
message — if any — appended). -/
theorem c4_turn_complete_finalization (s s' : OrchState)
    (hin : s.inputAcc = "") (hout : s.outputAcc = "")
    (hin' : jsTrim s'.inputAcc = "") :
    ([Event.messageA (inputFragMsg "Hel") 0,
      Event.messageA (inputFragMsg "lo") 0,
      Event.messageA turnCompleteMsg 0].foldl applyEvent s).transcript =
        s.transcript ++ [{ speaker := Speaker.USER, text := "Hello" }] ∧
      (applyEvent s' (Event.messageA turnCompleteMsg 0)).transcript =
        s'.transcript ++ (if jsTrim s'.outputAcc = "" then []
          else [{ speaker := Speaker.AI, text := jsTrim s'.outputAcc }]) := by
  constructor
  · simp only [List.foldl_cons, List.foldl_nil, applyEvent,
      onmessageA_inputFrag, onmessageA_turnComplete]
    rw [hin, hout]
    rw [if_pos (show jsTrim "" = "" from rfl),
      if_neg (show ¬jsTrim (("" ++ "Hel") ++ "lo") = "" by decide),
      show jsTrim (("" ++ "Hel") ++ "lo") = "Hello" from by decide]
  · simp only [applyEvent, onmessageA_turnComplete]
    rw [hin', if_pos (show ("" : String) = "" from rfl)]
    by_cases hob : jsTrim s'.outputAcc = ""
    · rw [if_pos hob, if_pos hob, List.append_nil]
    · rw [if_neg hob, if_neg hob]

/-- Concrete state for the C4 witness: whitespace-only input
accumulator, `" hi "` output accumulator. -/
def c4WitnessState : OrchState :=
  { initOrch with inputAcc := " ", outputAcc := " hi " }

/-- Witness for C4: the first scenario run from the initial state, the
second from a state holding whitespace input and `" hi "` output. -/
theorem c4_turn_complete_finalization_witness :
    initOrch.inputAcc = "" ∧ initOrch.outputAcc = "" ∧
      jsTrim c4WitnessState.inputAcc = "" ∧
      (([Event.messageA (inputFragMsg "Hel") 0,
        Event.messageA (inputFragMsg "lo") 0,
        Event.messageA turnCompleteMsg 0].foldl applyEvent initOrch).transcript =
          initOrch.transcript ++
            [{ speaker := Speaker.USER, text := "Hello" }] ∧
        (applyEvent c4WitnessState
            (Event.messageA turnCompleteMsg 0)).transcript =
          c4WitnessState.transcript ++
            (if jsTrim c4WitnessState.outputAcc = "" then []
             else [{ speaker := Speaker.AI,
                     text := jsTrim c4WitnessState.outputAcc }])) :=
  ⟨rfl, rfl, by decide,
    c4_turn_complete_finalization initOrch c4WitnessState rfl rfl (by decide)⟩

/-- C6.  Playback scheduling: two audio clips arriving while the output
context's current time is `t0` are scheduled back to back: the first at
`max(cursor, t0)`, the second exactly at the first start plus the first
clip's duration (so the clips never overlap), and the scheduling cursor
never decreases. -/
theorem c6_playback_scheduling (s : OrchState) (t0 : ℚ)
    (p1 p2 : List Nat) :
    (applyEvent s (Event.messageA (audioMsg p1) t0)).scheduled =
        s.scheduled ++ [(max s.nextStartTime t0, clipDuration p1)] ∧
      (applyEvent (applyEvent s (Event.messageA (audioMsg p1) t0))
          (Event.messageA (audioMsg p2) t0)).scheduled =
        s.scheduled ++ [(max s.nextStartTime t0, clipDuration p1),
          (max s.nextStartTime t0 + clipDuration p1, clipDuration p2)] ∧
      s.nextStartTime ≤
        (applyEvent s (Event.messageA (audioMsg p1) t0)).nextStartTime ∧
      (applyEvent s (Event.messageA (audioMsg p1) t0)).nextStartTime ≤
        (applyEvent (applyEvent s (Event.messageA (audioMsg p1) t0))
          (Event.messageA (audioMsg p2) t0)).nextStartTime := by
  have hd1 : 0 ≤ clipDuration p1 := by
    unfold clipDuration
    positivity
  have hd2 : 0 ≤ clipDuration p2 := by
    unfold clipDuration
    positivity
  have hmax : max (max s.nextStartTime t0 + clipDuration p1) t0 =
      max s.nextStartTime t0 + clipDuration p1 :=
    max_eq_left (le_trans (le_max_right _ _) (le_add_of_nonneg_right hd1))
  simp only [applyEvent, onmessageA_audio]
  refine ⟨trivial, ?_, ?_, ?_⟩
  · simp [hmax]
  · exact le_trans (le_max_left _ _) (le_add_of_nonneg_right hd1)
  · exact le_trans (le_max_left _ _) (le_add_of_nonneg_right hd2)

/-- C10.  Stopping a recording whose accumulated transcription trims to
empty does not drop the in-progress USER entry: its text is finalized as
`"(No speech detected)"`, nothing is sent to the AI chat and no AI entry
is opened, and because that text is nonempty and not `"..."` the entry
survives the `endInterview` filter and reaches the report generator. -/
theorem c10_no_speech_detected (s : OrchState)
    (pre : List TranscriptMessage) (x : String)
    (hrec : s.isRecording = true) (hacc : jsTrim s.liveAcc = "")
    (ht : s.transcript = pre ++ [{ speaker := Speaker.USER, text := x }]) :
    (handleStopRecording s).transcript =
        pre ++ [{ speaker := Speaker.USER, text := "(No speech detected)" }] ∧
      (handleStopRecording s).sentToAi = s.sentToAi ∧
      (handleStopRecording s).isAiTyping = s.isAiTyping ∧
      cleanTranscript (handleStopRecording s).transcript =
        cleanTranscript pre ++
          [{ speaker := Speaker.USER, text := "(No speech detected)" }] := by
  have hfin : finalizeLastUser s.transcript "(No speech detected)" =
      pre ++ [{ speaker := Speaker.USER, text := "(No speech detected)" }] := by
    rw [ht]
    unfold finalizeLastUser
    rw [List.getLast?_concat]
    dsimp only
    rw [if_pos rfl, setLast_concat]
  have hstep : handleStopRecording s =
      { s with
        isRecording := false,
        liveAcc := "",
        transcript :=
          finalizeLastUser s.transcript "(No speech detected)" } := by
    unfold handleStopRecording
    rw [hrec, hacc]
    simp
  rw [hstep, hfin]
  refine ⟨rfl, rfl, rfl, ?_⟩
  unfold cleanTranscript
  rw [List.filter_append]
  congr 1

/-- Concrete state for the C10 witness: recording in progress, a
whitespace-only accumulated transcription, and the `'...'` placeholder
entry last. -/
def c10WitnessState : OrchState :=
  { initOrch with
    isRecording := true,
    liveAcc := " ",
    transcript := [{ speaker := Speaker.USER, text := "..." }] }

/-- Witness for C10 at the concrete recording state with whitespace-only
transcription. -/
theorem c10_no_speech_detected_witness :
    c10WitnessState.isRecording = true ∧
      jsTrim c10WitnessState.liveAcc = "" ∧
      c10WitnessState.transcript =
        [] ++ [{ speaker := Speaker.USER, text := "..." }] ∧
      ((handleStopRecording c10WitnessState).transcript =
        [] ++ [{ speaker := Speaker.USER, text := "(No speech detected)" }] ∧
      (handleStopRecording c10WitnessState).sentToAi =
        c10WitnessState.sentToAi ∧
      (handleStopRecording c10WitnessState).isAiTyping =
        c10WitnessState.isAiTyping ∧
      cleanTranscript (handleStopRecording c10WitnessState).transcript =
        cleanTranscript [] ++
          [{ speaker := Speaker.USER, text := "(No speech detected)" }]) :=
  ⟨rfl, by decide, rfl,
    c10_no_speech_detected c10WitnessState [] "..." rfl (by decide) rfl⟩

/-- C7 (bug evidence).  A state in which the user has toggled mute after
the session opened: the live `isMuted` flag is set, but the
`onaudioprocess` closure still holds the captured initial value, so a
captured frame IS forwarded to the connection.  The spec's claim that a
muted session forwards no frames is the evident intent (the mute button
and the `if (!isMuted)` guard exist for exactly this), but the
session-start effect runs once with `[config]` as its dependency array,
so the closure never observes `setIsMuted` updates. -/
theorem c7_mute_gating_bug :
    (runEvents [Event.toggleMute]).isMuted = true ∧
      (onaudioprocessA (runEvents [Event.toggleMute]) [1/2]).sent =
        some (onaudioprocessA (runEvents [Event.toggleMute]) [1/2]).blobData ∧
      (onaudioprocessA (runEvents [Event.toggleMute]) [1/2]).sent ≠ none := by
  refine ⟨rfl, rfl, ?_⟩
  decide

/-! ## Teardown and end-of-interview (push-to-talk variant)

`cleanupLiveSession` (lines 279-321) releases the session resources in
order — microphone tracks, processor node, media-stream source, audio
contexts, live connection — clearing each ref, guarded by
`cleanupPerformedRef` so it runs at most once; both `endInterview`
(line 453) and the unmount effect (line 510) call it.  `endInterview`
(lines 448-468) then filters the transcript and calls the report
generator; on failure it sets an error status and re-enables the UI
without touching the transcript. -/

/-- One observable resource-release action of the teardown path. -/
inductive ReleaseAction where
  | stopTracks
  | disconnectProcessor
  | disconnectSource
  | closeContexts
  | closeSession
deriving DecidableEq, Repr

/-- The refs holding the session resources, plus the
`cleanupPerformedRef` guard flag (each `Bool` says whether the ref is
non-null). -/
structure SessionResources where
  audioStream : Bool
  scriptProcessor : Bool
  mediaStreamSource : Bool
  audioContexts : Bool
  sessionPromise : Bool
  cleanupPerformed : Bool
deriving DecidableEq, Repr

/-- Embedding of `cleanupLiveSession` (lines 279-321): if the guard flag
is set, do nothing; otherwise release every present resource (returned
as the list of performed release actions), null out all refs and set the
guard.  The close calls are wrapped in try/catch in the source, so the
function is total and raises nothing. -/
def cleanupLiveSession (s : SessionResources) :
    SessionResources × List ReleaseAction :=
  if s.cleanupPerformed then (s, [])
  else
    ({ audioStream := false, scriptProcessor := false,
       mediaStreamSource := false, audioContexts := false,
       sessionPromise := false, cleanupPerformed := true },
     (if s.audioStream then [ReleaseAction.stopTracks] else []) ++
     (if s.scriptProcessor then [ReleaseAction.disconnectProcessor] else []) ++
     (if s.mediaStreamSource then [ReleaseAction.disconnectSource] else []) ++
     (if s.audioContexts then [ReleaseAction.closeContexts] else []) ++
     (if s.sessionPromise then [ReleaseAction.closeSession] else []))

/-! Report data model (src/types.ts: FeedbackReport). -/

/-- Answer-quality sub-report; the source field `example` is a reserved
word in Lean and is embedded as `exampleAnswer`. -/
structure AnswerQuality where
  score : Int
  feedback : String
  exampleAnswer : String
deriving DecidableEq

structure CommunicationSkills where
  score : Int
  feedback : String
  fillerWords : Int
  pace : String
deriving DecidableEq

structure ContentFeedback where
  score : Int
  feedback : String
  missedOpportunities : List String
deriving DecidableEq

structure FeedbackReport where
  overallScore : Int
  answerQuality : AnswerQuality
  communicationSkills : CommunicationSkills
  contentFeedback : ContentFeedback
deriving DecidableEq

/-- Component state relevant to `endInterview` in the push-to-talk
variant. -/
structure ScreenState where
  status : String
  isGeneratingReport : Bool
  isRecording : Bool
  isAiTyping : Bool
  transcript : List TranscriptMessage
  resources : SessionResources
deriving DecidableEq

/-- Embedding of `endInterview` (lines 448-468), parameterised by the
outcome of the external `generateFeedbackReport` call (`none` models a
thrown `ReportGenerationError`).  Returns the new state, the release
actions performed by its teardown, and the `onInterviewEnd` invocation
(the filtered transcript and report handed over) if any. -/
def endInterview (s : ScreenState) (reportResult : Option FeedbackReport) :
    ScreenState × List ReleaseAction ×
      Option (List TranscriptMessage × FeedbackReport) :=
  let s1 := { s with
    status := "Ending session...",
    isRecording := false,
    isAiTyping := false }
  let cr := cleanupLiveSession s1.resources
  let s2 := { s1 with
    resources := cr.1,
    status := "Generating your feedback report...",
    isGeneratingReport := true }
  let clean := cleanTranscript s2.transcript
  match reportResult with
  | some report => (s2, cr.2, some (clean, report))
  | none =>
      ({ s2 with
         status := "Error generating report. Please try again.",
         isGeneratingReport := false }, cr.2, none)

theorem cleanupLiveSession_performed (s : SessionResources) :
    (cleanupLiveSession s).1.cleanupPerformed = true := by
  unfold cleanupLiveSession
  split_ifs with h
  · exact h
  all_goals rfl

theorem cleanupLiveSession_noop (s : SessionResources)
    (h : s.cleanupPerformed = true) : cleanupLiveSession s = (s, []) := by
  unfold cleanupLiveSession
  rw [if_pos h]

theorem endInterview_resources (s : ScreenState)
    (r : Option FeedbackReport) :
    (endInterview s r).1.resources = (cleanupLiveSession s.resources).1 := by
  unfold endInterview
  cases r <;> rfl

theorem endInterview_actions (s : ScreenState) (r : Option FeedbackReport) :
    (endInterview s r).2.1 = (cleanupLiveSession s.resources).2 := by
  unfold endInterview
  cases r <;> rfl

/-- C5.  Teardown idempotence: after a first `end()` call, a second
`end()` performs no resource release and leaves the resources unchanged,
and an unmount-triggered disposal (`cleanupLiveSession`) after `end()`
likewise releases nothing and changes nothing; every function involved
is total, so no error is raised.  The release thus happens exactly once,
on the first call. -/
theorem c5_teardown_idempotence (s : ScreenState)
    (r1 r2 : Option FeedbackReport) :
    (endInterview (endInterview s r1).1 r2).2.1 = [] ∧
      (endInterview (endInterview s r1).1 r2).1.resources =
        (endInterview s r1).1.resources ∧
      (cleanupLiveSession (endInterview s r1).1.resources).2 = [] ∧
      (cleanupLiveSession (endInterview s r1).1.resources).1 =
        (endInterview s r1).1.resources := by
  have hperf : (endInterview s r1).1.resources.cleanupPerformed = true := by
    rw [endInterview_resources]
    exact cleanupLiveSession_performed s.resources
  have hnoop := cleanupLiveSession_noop _ hperf
  refine ⟨?_, ?_, ?_, ?_⟩
  · rw [endInterview_actions, hnoop]
  · rw [endInterview_resources, hnoop]
  · rw [hnoop]
  · rw [hnoop]

/-! ## Report-failure path of the continuous-voice variant

The claim about report failure also cites the continuous-voice
`endInterview` (lines 34-75).  Its `catch` (lines 71-74) sets the error
status string but — unlike the push-to-talk variant — never clears
`isGeneratingReport`, which was set at entry (line 36).  Because the
component returns the spinner screen whenever `isGeneratingReport` is
set (lines 206-214), and that screen displays neither the `status`
string nor any control, the failure is invisible and nothing can be
retried. -/

/-- Component state relevant to the continuous-voice `endInterview`
report path (lines 34-75); the resource teardown it also performs is
independent of the report path and modelled with `cleanupLiveSession`
above. -/
structure ScreenStateA where
  status : String
  isGeneratingReport : Bool
  transcript : List TranscriptMessage
deriving DecidableEq

/-- Embedding of the report path of the continuous-voice `endInterview`
(lines 34-36 and 68-74), parameterised by the outcome of the external
`generateFeedbackReport` call (`none` models a thrown error): set the
generating status and flag, then either hand the raw transcript and
report to `onInterviewEnd`, or set the error status — without clearing
`isGeneratingReport`. -/
def endInterviewA (s : ScreenStateA) (reportResult : Option FeedbackReport) :
    ScreenStateA × Option (List TranscriptMessage × FeedbackReport) :=
  let s1 := { s with
    status := "Generating your feedback report...",
    isGeneratingReport := true }
  match reportResult with
  | some report => (s1, some (s.transcript, report))
  | none =>
      ({ s1 with status := "Error generating report. Please try again." },
       none)

/-- View selector of the continuous-voice screen (lines 206-214): while
`isGeneratingReport` is set the component renders the spinner screen,
which shows neither the `status` string nor any button. -/
def showsSpinnerScreenA (s : ScreenStateA) : Bool := s.isGeneratingReport

/-- C9 (bug evidence).  On a report-generation failure the
continuous-voice `endInterview` does preserve the assembled transcript
and hands nothing to `onInterviewEnd`, and it writes the error status
string — but it never clears `isGeneratingReport`, so the component
keeps rendering the spinner screen, which displays neither the status
nor any control: the failure is not surfaced as a visible error state
and report generation cannot be retried.  (The push-to-talk variant,
embedded as `endInterview` above, does clear the flag in its `catch`,
which is the behavior the claim and the spec describe — the missing
`setIsGeneratingReport(false)` in the continuous-voice `catch` is the
slip.) -/
theorem c9_report_failure_not_surfaced (s : ScreenStateA) :
    (endInterviewA s none).1.transcript = s.transcript ∧
      (endInterviewA s none).2 = none ∧
      (endInterviewA s none).1.status =
        "Error generating report. Please try again." ∧
      (endInterviewA s none).1.isGeneratingReport = true ∧
      showsSpinnerScreenA (endInterviewA s none).1 = true :=
  ⟨rfl, rfl, rfl, rfl, rfl⟩
